import Mathlib

/-!
Shallow embedding of the RecBole negative-sampling data-loading subsystem
(`data/dataloader.py` and `data/interaction.py`).

Conventions used throughout:
* pandas dataframes are Lean lists of rows, or records of parallel column lists;
* numpy arrays and torch tensors are Lean lists; numpy slice assignment is
  modelled explicitly, with its error cases surfaced through `Except`;
* the external `Sampler` collaborator is passed as a function parameter;
* Python runtime errors (`ValueError`, `TypeError`, `PermissionError`,
  `ZeroDivisionError`) are `Except.error` values carrying the message.
-/

namespace RecBole

/-- The `neg_sample_args` configuration dict.  `sampleBy` models the key
`by` and `sampleTo` the key `to` (kept as an integer because `-1` means
"full" in the source). -/
structure NegSampleArgs where
  strategy : String
  realTime : Bool
  sampleBy : Nat
  sampleTo : Int
deriving Repr, DecidableEq

/-- Result of `GeneralInteractionBasedDataLoader._batch_size_adaptation`:
the `times` attribute (left unset, hence `none`, in pairwise format), the
`step` attribute, and the adapted `batch_size` (stored through
`set_batch_size`, which succeeds here because `pr = 0` at construction). -/
structure InterAdapt where
  times : Option Nat
  step : Nat
  batchSize : Nat
deriving Repr, DecidableEq

/-- `GeneralInteractionBasedDataLoader._batch_size_adaptation`
(dataloader.py lines 134-142):
pairwise format sets `step = batch_size` and returns; pointwise format sets
`times = 1 + by`, `batch_num = batch_size // times`,
`new_batch_size = (batch_num + 1) * times`,
`step = batch_num + 1` when real-time else `new_batch_size`, and adopts
`new_batch_size` as the batch size. -/
def interBatchSizeAdaptation (dlFormat : String) (sampleBy : Nat) (realTime : Bool)
    (batchSize : Nat) : InterAdapt :=
  if dlFormat = "pairwise" then
    { times := none, step := batchSize, batchSize := batchSize }
  else
    let times := 1 + sampleBy
    let batchNum := batchSize / times
    let newBatchSize := (batchNum + 1) * times
    { times := some times,
      step := if realTime then batchNum + 1 else newBatchSize,
      batchSize := newBatchSize }

/-- Result of `GeneralGroupedDataLoader._batch_size_adaptation`: the possibly
redefined `neg_sample_args` value for the key `to`, the `step` attribute and
the adapted `batch_size`. -/
structure GroupedAdapt where
  newTo : Int
  step : Int
  batchSize : Int
deriving Repr, DecidableEq

/-- `GeneralGroupedDataLoader._batch_size_adaptation`
(dataloader.py lines 218-224): when the configured `to` is `-1` it is first
redefined to the dataset's item count; then
`batch_num = batch_size // to` (Python floor division, which raises
`ZeroDivisionError` when `to = 0`), `new_batch_size = (batch_num + 1) * to`,
`step = batch_num + 1`. -/
def groupedBatchSizeAdaptation (sampleTo : Int) (itemNum : Nat) (batchSize : Int) :
    Except String GroupedAdapt :=
  let toVal : Int := if sampleTo = -1 then (itemNum : Int) else sampleTo
  if toVal = 0 then
    .error "ZeroDivisionError: integer division or modulo by zero"
  else
    let batchNum := Int.fdiv batchSize toVal
    let newBatchSize := (batchNum + 1) * toVal
    .ok { newTo := toVal, step := batchNum + 1, batchSize := newBatchSize }

/-- The mutable attributes of `AbstractDataLoader` touched by
`set_batch_size`; `step` and `shuffle` stand for the remaining loader state,
which the method never writes. -/
structure LoaderState where
  batchSize : Nat
  pr : Nat
  step : Nat
  shuffle : Bool
deriving Repr, DecidableEq

/-- `AbstractDataLoader.set_batch_size` (dataloader.py lines 66-71): raises
`PermissionError` when the pagination cursor `pr` is nonzero; otherwise
stores the new value only when it differs from the current one. -/
def setBatchSize (s : LoaderState) (batchSize : Nat) : Except String LoaderState :=
  if s.pr ≠ 0 then
    .error "PermissionError: Cannot change dataloader batch_size while iteration"
  else if s.batchSize ≠ batchSize then
    .ok { s with batchSize := batchSize }
  else
    .ok s

/-- The validations in `NegSampleBasedDataLoader.__init__`
(dataloader.py lines 77-80): `dl_format` must be `pointwise` or `pairwise`
and the negative-sampling strategy must be `by` or `to`. -/
def negSampleBasedInitCheck (dlFormat strategy : String) : Except String Unit :=
  if ¬ (dlFormat = "pointwise" ∨ dlFormat = "pairwise") then
    .error ("dl_format [" ++ dlFormat ++ "] has not been implemented")
  else if ¬ (strategy = "by" ∨ strategy = "to") then
    .error ("neg_sample strategy [" ++ strategy ++ "] has not been implemented")
  else
    .ok ()

/-- Loader state produced by a successful `GeneralInteractionBasedDataLoader`
construction (the dataset registry mutations and the eager pre-sampling call
into the external sampler are outside this state). -/
structure InterLoaderState where
  dlFormat : String
  args : NegSampleArgs
  times : Option Nat
  step : Nat
  batchSize : Nat
deriving Repr, DecidableEq

/-- `GeneralInteractionBasedDataLoader.__init__` (dataloader.py lines
104-121): its own checks (strategy must be `by`; pairwise requires `by = 1`)
run first, then the superclass validations, then the batch-size
adaptation.  Registration of the label / negative-item fields mutates the
dataset's registries and is external to this state. -/
def generalInteractionBasedInit (dlFormat : String) (args : NegSampleArgs)
    (batchSize : Nat) : Except String InterLoaderState :=
  if args.strategy ≠ "by" then
    .error "neg_sample strategy in GeneralInteractionBasedDataLoader() should be the by strategy"
  else if dlFormat = "pairwise" ∧ args.sampleBy ≠ 1 then
    .error "Pairwise dataloader can only neg sample by 1"
  else
    match negSampleBasedInitCheck dlFormat args.strategy with
    | .error e => .error e
    | .ok _ =>
        let a := interBatchSizeAdaptation dlFormat args.sampleBy args.realTime batchSize
        .ok { dlFormat := dlFormat, args := args,
              times := a.times, step := a.step, batchSize := a.batchSize }

/-- Loader state produced by a successful `GeneralGroupedDataLoader`
construction. -/
structure GroupedLoaderState where
  dlFormat : String
  args : NegSampleArgs
  full : Bool
  newTo : Int
  step : Int
  batchSize : Int
deriving Repr, DecidableEq

/-- `GeneralGroupedDataLoader.__init__` (dataloader.py lines 199-216): its
own checks (strategy must be `to`; pairwise is rejected) run first, then the
superclass validations, then the batch-size adaptation (which can raise
`ZeroDivisionError`).  The label-field registration mutates the dataset's
registries and is external to this state. -/
def generalGroupedInit (dlFormat : String) (args : NegSampleArgs)
    (itemNum : Nat) (batchSize : Int) : Except String GroupedLoaderState :=
  if args.strategy ≠ "to" then
    .error "neg_sample strategy in GeneralGroupedDataLoader() should be the to strategy"
  else if dlFormat = "pairwise" then
    .error "pairwise dataloader cannot neg sample to"
  else
    match negSampleBasedInitCheck dlFormat args.strategy with
    | .error e => .error e
    | .ok _ =>
        match groupedBatchSizeAdaptation args.sampleTo itemNum batchSize with
        | .error e => .error e
        | .ok a =>
            .ok { dlFormat := dlFormat, args := args,
                  full := args.sampleTo = -1,
                  newTo := a.newTo, step := a.step, batchSize := a.batchSize }

/-- A Python dict write `d[k] = v` on an insertion-ordered dict modelled as
an association list: an existing key keeps its position and gets the new
value, a new key is appended at the end. -/
def dictSet {β : Type} (d : List (String × β)) (k : String) (v : β) :
    List (String × β) :=
  if d.any (fun p => p.1 = k) then
    d.map (fun p => if p.1 = k then (k, v) else p)
  else
    d ++ [(k, v)]

/-- The `Interaction` container (interaction.py): an insertion-ordered dict
from field name to a tensor-like value of type `α`, plus the `length`
attribute.  `length` is `none` when the attribute was never assigned (the
constructor's loop body never runs on an empty dict, so `__len__` would
raise `AttributeError`). -/
structure Interaction (α : Type) where
  interaction : List (String × α)
  length : Option Nat
deriving Repr, DecidableEq

/-- `Interaction.__init__` (interaction.py lines 11-15): stores the dict and
sets `length` to `shape[0]` of the first value in insertion order, breaking
out of the loop immediately; `shape0` abstracts the tensor's first
dimension. -/
def mkInteraction {α : Type} (shape0 : α → Nat) (d : List (String × α)) :
    Interaction α :=
  { interaction := d, length := d.head?.map (fun p => shape0 p.2) }

/-- `Interaction.__len__` (interaction.py lines 26-27): returns the stored
`length` attribute (`none` models the `AttributeError` on an `Interaction`
built from an empty dict). -/
def Interaction.lengthVal {α : Type} (it : Interaction α) : Option Nat :=
  it.length

/-- `Interaction.update` (interaction.py lines 67-69): writes every field of
`other` into `self.interaction`, overwriting on key collision; the `length`
attribute is not recomputed. -/
def Interaction.update {α : Type} (self other : Interaction α) : Interaction α :=
  { interaction :=
      other.interaction.foldl (fun d p => dictSet d p.1 p.2) self.interaction,
    length := self.length }

/-- A dataframe column as it moves through
`AbstractDataLoader._dataframe_to_interaction`: `raw` and `rawSeq` are the
plain Python lists produced by `to_dict`, `longTensor` / `floatTensor` are
converted columns (the numeric payload is kept as integers; only the
conversion dispatch matters here). -/
inductive Col where
  | raw (xs : List Int)
  | rawSeq (xs : List (List Int))
  | longTensor (xs : List Int)
  | floatTensor (xs : List Int)
deriving Repr, DecidableEq

/-- First dimension of a converted column, for the `Interaction` wrapper. -/
def Col.shape0 : Col → Nat
  | .raw xs => xs.length
  | .rawSeq xs => xs.length
  | .longTensor xs => xs.length
  | .floatTensor xs => xs.length

/-- One step of the loop in `AbstractDataLoader._dataframe_to_interaction`
(dataloader.py lines 50-63), processing field `k` of the dict `data`:
`token` and `float` convert the column in place; `token_seq` and
`float_seq` first rebind the name `data` to the list comprehension
`[torch.LongTensor(d[:seqlen[k]]) for d in data[k]]` and then evaluate
`data[k] = rnn_utils.pad_sequence(data, batch_first=True)`, which indexes a
Python list with a string key and raises `TypeError`; any other declared
type raises `ValueError`. -/
def dataframeFieldStep (field2type : String → String)
    (data : List (String × Col)) (k : String) : Except String (List (String × Col)) :=
  let ftype := field2type k
  if ftype = "token" then
    .ok (data.map (fun p =>
      if p.1 = k then
        (k, match p.2 with
            | .raw xs => Col.longTensor xs
            | c => c)
      else p))
  else if ftype = "float" then
    .ok (data.map (fun p =>
      if p.1 = k then
        (k, match p.2 with
            | .raw xs => Col.floatTensor xs
            | c => c)
      else p))
  else if ftype = "token_seq" ∨ ftype = "float_seq" then
    .error "TypeError: list indices must be integers or slices, not str"
  else
    .error ("ValueError: Illegal ftype [" ++ ftype ++ "]")

/-- Inner loop of `_dataframe_to_interaction` over the (fixed) key sequence
of the dict, threading the dict state and stopping at the first raised
error. -/
def dataframeFieldLoop (field2type : String → String)
    (data : List (String × Col)) : List String → Except String (List (String × Col))
  | [] => .ok data
  | k :: ks =>
      match dataframeFieldStep field2type data k with
      | .error e => .error e
      | .ok data1 => dataframeFieldLoop field2type data1 ks

/-- `AbstractDataLoader._dataframe_to_interaction` (dataloader.py lines
47-64): iterates over the keys of `data = df.to_dict(orient='list')` in
insertion order, converts each field according to its declared type, and
wraps the result in an `Interaction`. -/
def dataframeToInteraction (field2type : String → String)
    (df : List (String × Col)) : Except String (Interaction Col) :=
  match dataframeFieldLoop field2type df (df.map (fun p => p.1)) with
  | .error e => .error e
  | .ok data => .ok (mkInteraction Col.shape0 data)

/-- numpy slice assignment `arr[s:] = repl`, which requires `repl` to have
exactly the length of the assigned suffix and otherwise raises a broadcast
`ValueError`. -/
def sliceAssignSuffix {α : Type} (l : List α) (s : Nat) (repl : List α) :
    Except String (List α) :=
  if repl.length = l.length - s then
    .ok (l.take s ++ repl)
  else
    .error "ValueError: could not broadcast input array"

/-- numpy slice assignment `arr[:s] = v` with a scalar `v`: the prefix (of
length `min s (len arr)`) is overwritten, never an error. -/
def sliceAssignScalarPre {α : Type} (l : List α) (s : Nat) (v : α) : List α :=
  (l.take s).map (fun _ => v) ++ l.drop s

/-- Output columns of
`GeneralInteractionBasedDataLoader._neg_sample_by_point_wise_sampling`:
user-id column, item-id column and the added label column of the produced
dataframe. -/
structure PointWiseResult where
  uids : List Int
  iids : List Int
  labels : List Int
deriving Repr, DecidableEq

/-- `GeneralInteractionBasedDataLoader._neg_sample_by_point_wise_sampling`
(dataloader.py lines 186-196): `inter_feat` is the slice of positive rows as
(user id, item id) pairs, `negIids` the flat array drawn by the sampler.
The dataframe is replicated `times` times (`pd.concat`), the item-id column
is overwritten from position `pos_inter_num` on with `negIids`, and a label
column of `pos_inter_num * times` zeros with the first `pos_inter_num`
entries set to `1` is added.  (The `dataset.join` applied in the real-time
branch only adds feature columns and is external.) -/
def negSampleByPointWiseSampling (times : Nat) (interFeat : List (Int × Int))
    (negIids : List Int) : Except String PointWiseResult :=
  let posInterNum := interFeat.length
  let newDf := (List.replicate times interFeat).flatten
  match sliceAssignSuffix (newDf.map Prod.snd) posInterNum negIids with
  | .error e => .error e
  | .ok iidCol =>
      let labels := sliceAssignScalarPre
        (List.replicate (posInterNum * times) (0 : Int)) posInterNum 1
      .ok { uids := newDf.map Prod.fst, iids := iidCol, labels := labels }

/-- pandas left merge of the rows `left` (each carrying its join key, the
negative item id, as second component) with the right table `right` keyed by
its first component: every left row is kept in order, paired with each
matching right row, or with `none` (a NaN row) when no right row matches. -/
def leftMergeOnNeg {α φ : Type} (left : List (α × Int)) (right : List (Int × φ)) :
    List ((α × Int) × Option φ) :=
  left.flatMap (fun r =>
    let ms := right.filter (fun p => p.1 = r.2)
    if ms.isEmpty then [(r, none)] else ms.map (fun p => (r, some p.2)))

/-- `GeneralInteractionBasedDataLoader._neg_sample_by_pair_wise_sampling`
(dataloader.py lines 174-184): `inter_feat.insert` appends the sampled
negative-item-id column (pandas raises `ValueError` when its length differs
from the row count); when an item feature table exists, its columns (renamed
with the configured negative marker through `add_prefix`) are left-joined on
the negative item id.  Feature payloads are abstracted by the type `φ`;
`none` in an output row stands for the absent feature columns (no item
feature table) or a NaN row (unmatched key). -/
def negSampleByPairWiseSampling {φ : Type} (interFeat : List (Int × Int))
    (negIids : List Int) (itemFeat : Option (List (Int × φ))) :
    Except String (List (((Int × Int) × Int) × Option φ)) :=
  if negIids.length ≠ interFeat.length then
    .error "ValueError: Length of values does not match length of index"
  else
    let withNeg := interFeat.zip negIids
    match itemFeat with
    | none => .ok (withNeg.map (fun r => (r, none)))
    | some feat => .ok (leftMergeOnNeg withNeg feat)

/-- One row of the flat table built by
`GeneralGroupedDataLoader._neg_sampling`: the user-id, item-id and label
columns of `new_inter`. -/
structure GRow where
  uid : Int
  iid : Int
  label : Int
deriving Repr, DecidableEq

/-- Rows contributed by one user group in the non-full branch of
`GeneralGroupedDataLoader._neg_sampling` (dataloader.py lines 274-285):
the positives are `row[iid_field][:neg_sample_to - 1]`, the negatives are
drawn by `sampler.sample_by_user_id` for the remaining
`neg_sample_to - pos_num` slots; positives are written first with label 1,
then the negatives with label 0, all rows carrying the group's user id. -/
def groupRowsTo (samplerByUserId : Int → Nat → List Int) (negSampleTo : Nat)
    (uid : Int) (posItems : List Int) : List GRow :=
  let posItemId := posItems.take (negSampleTo - 1)
  let posNum := posItemId.length
  let negItemId := samplerByUserId uid (negSampleTo - posNum)
  posItemId.map (fun x => { uid := uid, iid := x, label := 1 }) ++
    negItemId.map (fun x => { uid := uid, iid := x, label := 0 })

/-- Rows contributed by one user group in the full branch (dataloader.py
lines 269-273, 280-285): all its positive items followed by
`sampler.sample_full_by_user_id`, labelled likewise. -/
def groupRowsFull (samplerFullByUserId : Int → List Int)
    (uid : Int) (posItems : List Int) : List GRow :=
  posItems.map (fun x => { uid := uid, iid := x, label := 1 }) ++
    (samplerFullByUserId uid).map (fun x => { uid := uid, iid := x, label := 0 })

/-- The branch on `self.full` selecting a group's rows in the loop body of
`_neg_sampling`; a group is one row of `uid2items`, i.e. a user id with the
list of that user's positive items. -/
def groupRows (full : Bool) (negSampleTo : Nat)
    (samplerByUserId : Int → Nat → List Int) (samplerFullByUserId : Int → List Int)
    (g : Int × List Int) : List GRow :=
  if full then groupRowsFull samplerFullByUserId g.1 g.2
  else groupRowsTo samplerByUserId negSampleTo g.1 g.2

/-- The `for i, row in enumerate(uid2items.itertuples())` loop of
`_neg_sampling` (dataloader.py lines 266-294).  Arguments after the group
list: the running index `i`, the running row count `new_inter_num`, and the
`next` map with `last_pr` (the map is an association list in insertion
order).  Each group's rows are written contiguously into the flat buffer
(modelled by list concatenation; the buffer's final truncation to
`new_inter_num` keeps exactly the written rows).  In pre-materialized mode,
whenever `i % step == 0` the code resets the map (at `i = 0`, where `next`
and `last_pr` are first created) or records the breakpoint
`next[last_pr] = new_inter_num`.  The modelled domain has `step ≥ 1` (the
batch-size adaptation always produces `batch_num + 1`). -/
def gLoop (rowsOf : Int × List Int → List GRow) (realTime : Bool) (step : Nat) :
    List (Int × List Int) → Nat → Nat → List (Nat × Nat) → Nat →
    List GRow × List (Nat × Nat) × Nat
  | [], _, _, nxt, lastPr => ([], nxt, lastPr)
  | g :: rest, i, cnt, nxt, lastPr =>
      let out := rowsOf g
      let cnt1 := cnt + out.length
      let st :=
        if ¬ realTime ∧ i % step = 0 then
          if i = 0 then ([], 0) else (nxt ++ [(lastPr, cnt1)], cnt1)
        else (nxt, lastPr)
      let r := gLoop rowsOf realTime step rest (i + 1) cnt1 st.1 st.2
      (out ++ r.1, r.2.1, r.2.2)

/-- `GeneralGroupedDataLoader._neg_sampling` (dataloader.py lines 255-303):
runs the group loop from index 0 with an empty buffer, and in
pre-materialized mode finally records `next[last_pr] = len(new_inter)`.
Returned: the flat expanded table and the `next` map (empty and unused in
real-time mode, where the result is instead joined with the dataset's
feature columns — a join external to these three columns).  The modelled
domain has a nonempty `uid2items` (on an empty one the code would raise
`AttributeError`, `next` never having been created). -/
def gNegSampling (full realTime : Bool) (step negSampleTo : Nat)
    (samplerByUserId : Int → Nat → List Int) (samplerFullByUserId : Int → List Int)
    (uid2items : List (Int × List Int)) : List GRow × List (Nat × Nat) :=
  let r := gLoop (groupRows full negSampleTo samplerByUserId samplerFullByUserId)
    realTime step uid2items 0 0 [] 0
  if realTime then (r.1, r.2.1)
  else (r.1, r.2.1 ++ [(r.2.2, r.1.length)])

/-- Total number of rows in a list of per-group row blocks. -/
def flatLen (outs : List (List GRow)) : Nat :=
  (outs.map List.length).sum

/-- `GeneralGroupedDataLoader.pr_end` (dataloader.py lines 226-231): the
number of user groups in real-time mode, else the length of the (expanded)
dataset. -/
def gPrEnd (realTime : Bool) (numGroups datasetLen : Nat) : Nat :=
  if realTime then numGroups else datasetLen

/-- Python slicing `l[a:b]` for nonnegative bounds, as used by
`_next_dataframe` on the expanded dataset. -/
def sliceRange {α : Type} (l : List α) (a b : Nat) : List α :=
  (l.drop a).take (b - a)

/-- `links` forms a linked path from `c` to `d`: each entry's key is the
previous entry's value, the first key being `c` and the last value `d`. -/
def IsLinkChain : Nat → List (Nat × Nat) → Nat → Prop
  | c, [], d => d = c
  | c, (k, v) :: rest, d => k = c ∧ IsLinkChain v rest d

/-- Cursor sequence visited when following a linked path from `c`. -/
def cursorsOf (c : Nat) (links : List (Nat × Nat)) : List Nat :=
  c :: links.map (fun p => p.2)

/-- The pagination contract of the pre-materialized `next` map over the
expanded flat table `rows`: some cursor sequence starts at 0, is strictly
increasing, ends exactly at the number of expanded rows, is realized by
`next`-map lookups (the `pr = self.next[self.pr]` updates of
`_next_dataframe`), visits only group boundaries of the expanded table —
interior breakpoints falling on the every-`step`-groups cadence (group
index `≡ 1 (mod step)`, the record firing after each group whose loop index
is a multiple of `step`) — and its consecutive slices reproduce the whole
table (each expanded row exactly once in one pass). -/
def NextChainSpec (step : Nat) (rowsOf : Int × List Int → List GRow)
    (uid2items : List (Int × List Int)) (rows : List GRow)
    (nxt : List (Nat × Nat)) : Prop :=
  ∃ cs : List Nat,
    List.Chain' (· < ·) cs ∧
    cs.head? = some 0 ∧
    cs.getLast? = some rows.length ∧
    (∀ pr ∈ cs.zip cs.tail, nxt.lookup pr.1 = some pr.2) ∧
    (∀ c ∈ cs, ∃ j, j ≤ uid2items.length ∧
      c = flatLen ((uid2items.map rowsOf).take j) ∧
      (j = 0 ∨ j = uid2items.length ∨ j % step = 1 % step)) ∧
    ((cs.zip cs.tail).map (fun pr => sliceRange rows pr.1 pr.2)).flatten = rows

/-! ## Theorems -/

/-- C1, counterexample.  The claim asserts that for `by = 2` and requested
`batch_size = 9` the adaptation yields `step = 3` and an unchanged adapted
batch size of `9`.  The code yields an adapted batch size of
`(9 / 3 + 1) * 3 = 12`, and a `step` of `4` (real-time) or `12`
(pre-materialized) — never `3`. -/
theorem C1_counterexample :
    (interBatchSizeAdaptation "pointwise" 2 true 9).batchSize = 12 ∧
    (interBatchSizeAdaptation "pointwise" 2 true 9).step = 4 ∧
    (interBatchSizeAdaptation "pointwise" 2 false 9).step = 12 ∧
    (12 : Nat) ≠ 9 := by
  refine ⟨rfl, rfl, rfl, by decide⟩

/-- C1, amended.  In pointwise format the adaptation computes
`times = 1 + by`, `batch_num = batch_size / times`, adapts the batch size to
`(batch_num + 1) * times`, and sets `step` to `batch_num + 1` when sampling
is real-time and to the adapted batch size otherwise; in particular for
`by = 2`, `batch_size = 9`: `times = 3`, `batch_num = 3`, adapted batch size
`12`, `step = 4` (real-time) or `12`.  In pairwise format `step` equals the
requested batch size and the batch size is unchanged. -/
theorem C1_amended_batch_size_adaptation (sampleBy : Nat) (realTime : Bool)
    (batchSize : Nat) :
    interBatchSizeAdaptation "pairwise" sampleBy realTime batchSize =
      { times := none, step := batchSize, batchSize := batchSize } ∧
    interBatchSizeAdaptation "pointwise" sampleBy realTime batchSize =
      { times := some (1 + sampleBy),
        step := if realTime then batchSize / (1 + sampleBy) + 1
                else (batchSize / (1 + sampleBy) + 1) * (1 + sampleBy),
        batchSize := (batchSize / (1 + sampleBy) + 1) * (1 + sampleBy) } ∧
    interBatchSizeAdaptation "pointwise" 2 realTime 9 =
      { times := some 3, step := if realTime then 4 else 12, batchSize := 12 } := by
  refine ⟨rfl, ?_, ?_⟩
  · simp [interBatchSizeAdaptation]
  · cases realTime <;> simp [interBatchSizeAdaptation]

/-- C5.  The grouped loader's batch-size adaptation satisfies
`step = floor(batch_size / to) + 1` and adapted batch size `= step * to`,
where `to` is first redefined to the dataset's item count when the
configured value is `-1`.  (The hypothesis excludes the division by zero the
code would raise for `to = 0`.) -/
theorem C5_grouped_batch_size_adaptation (sampleTo : Int) (itemNum : Nat)
    (batchSize : Int)
    (h : (if sampleTo = -1 then (itemNum : Int) else sampleTo) ≠ 0) :
    groupedBatchSizeAdaptation sampleTo itemNum batchSize =
      .ok { newTo := if sampleTo = -1 then (itemNum : Int) else sampleTo,
            step := Int.fdiv batchSize
                (if sampleTo = -1 then (itemNum : Int) else sampleTo) + 1,
            batchSize :=
              (Int.fdiv batchSize
                  (if sampleTo = -1 then (itemNum : Int) else sampleTo) + 1) *
                (if sampleTo = -1 then (itemNum : Int) else sampleTo) } := by
  unfold groupedBatchSizeAdaptation
  rw [if_neg h]

/-- C5, witness at `to = 4`, `item_num = 10`, `batch_size = 9`:
`step = 9 / 4 + 1 = 3`, adapted batch size `3 * 4 = 12`. -/
theorem C5_witness :
    ((if (4 : Int) = -1 then ((10 : Nat) : Int) else 4) ≠ 0) ∧
    groupedBatchSizeAdaptation 4 10 9 =
      .ok { newTo := 4, step := 3, batchSize := 12 } := by
  refine ⟨by decide, ?_⟩
  rw [C5_grouped_batch_size_adaptation 4 10 9 (by decide)]
  rfl

/-- C8.  `set_batch_size` raises whenever the pagination cursor `pr` is
nonzero, whatever value is passed (the stored batch size is untouched, the
raise preceding any assignment); with `pr = 0` it is a no-op when passed the
current batch size and adopts any different value, leaving every other
attribute unchanged. -/
theorem C8_set_batch_size (s : LoaderState) (n : Nat) :
    (s.pr ≠ 0 →
      setBatchSize s n =
        .error "PermissionError: Cannot change dataloader batch_size while iteration") ∧
    (s.pr = 0 → n = s.batchSize → setBatchSize s n = .ok s) ∧
    (s.pr = 0 → n ≠ s.batchSize → setBatchSize s n = .ok { s with batchSize := n }) := by
  refine ⟨fun h => ?_, fun h hn => ?_, fun h hn => ?_⟩
  · simp [setBatchSize, h]
  · simp [setBatchSize, h, hn]
  · simp [setBatchSize, h, Ne.symm hn]

/-- C8, witness: with cursor `3` the call fails even for the current value
`8`; with cursor `0`, passing `8` is a no-op and passing `5` adopts `5`. -/
theorem C8_witness :
    setBatchSize { batchSize := 8, pr := 3, step := 2, shuffle := false } 8 =
      .error "PermissionError: Cannot change dataloader batch_size while iteration" ∧
    setBatchSize { batchSize := 8, pr := 0, step := 2, shuffle := false } 8 =
      .ok { batchSize := 8, pr := 0, step := 2, shuffle := false } ∧
    setBatchSize { batchSize := 8, pr := 0, step := 2, shuffle := false } 5 =
      .ok { batchSize := 5, pr := 0, step := 2, shuffle := false } := by
  refine ⟨(C8_set_batch_size _ 8).1 (by decide),
    (C8_set_batch_size _ 8).2.1 rfl rfl,
    (C8_set_batch_size _ 5).2.2 rfl (by decide)⟩

/-- C7, counterexample.  A grouped-loader configuration with valid
`dl_format = pointwise`, valid strategy `to`, and `to = 0` is none of the
invalid configurations listed by the claim, yet construction fails: the
batch-size adaptation divides by zero. -/
theorem C7_counterexample :
    generalGroupedInit "pointwise"
      { strategy := "to", realTime := true, sampleBy := 1, sampleTo := 0 } 5 1 =
      .error "ZeroDivisionError: integer division or modulo by zero" ∧
    ("pointwise" = "pointwise" ∨ "pointwise" = "pairwise") ∧
    (("to" : String) = "by" ∨ ("to" : String) = "to") ∧
    ¬ ("pointwise" = "pairwise") := by
  refine ⟨rfl, Or.inl rfl, Or.inr rfl, by decide⟩

/-- C7, amended.  Construction of the loader matching the configured
strategy fails exactly on the invalid configurations: the interaction-based
loader (strategy `by`) constructs iff the format is `pointwise`, or
`pairwise` with `by = 1`; the grouped loader (strategy `to`) constructs iff
the format is `pointwise` and the effective candidate-set size (`to`, or
the item count when `to = -1`) is nonzero — `to = 0` additionally fails
with a division by zero during batch-size adaptation.  (The grouped part is
stated for `to ≥ -1`; a negative `to` other than `-1` would fail later,
inside the eager pre-sampling's buffer allocation, which is outside this
model.) -/
theorem C7_amended_construction_validation :
    (∀ (dlFormat : String) (args : NegSampleArgs) (batchSize : Nat),
      (∃ s, generalInteractionBasedInit dlFormat args batchSize = .ok s) ↔
        (args.strategy = "by" ∧
          (dlFormat = "pointwise" ∨ (dlFormat = "pairwise" ∧ args.sampleBy = 1)))) ∧
    (∀ (dlFormat : String) (args : NegSampleArgs) (itemNum : Nat) (batchSize : Int),
      (args.sampleTo = -1 ∨ 0 ≤ args.sampleTo) →
      ((∃ s, generalGroupedInit dlFormat args itemNum batchSize = .ok s) ↔
        (args.strategy = "to" ∧ dlFormat = "pointwise" ∧
          (if args.sampleTo = -1 then (itemNum : Int) else args.sampleTo) ≠ 0))) := by
  constructor
  · intro dlFormat args batchSize
    unfold generalInteractionBasedInit negSampleBasedInitCheck
    by_cases hs : args.strategy = "by"
    · by_cases hf : dlFormat = "pairwise"
      · by_cases hb : args.sampleBy = 1
        · simp [hs, hf, hb]
        · simp [hs, hf, hb]
      · by_cases hp : dlFormat = "pointwise"
        · simp [hs, hf, hp]
        · simp [hs, hf, hp]
    · simp [hs]
  · intro dlFormat args itemNum batchSize _
    unfold generalGroupedInit negSampleBasedInitCheck
    by_cases hs : args.strategy = "to"
    · by_cases hf : dlFormat = "pairwise"
      · simp [hs, hf]
      · by_cases hp : dlFormat = "pointwise"
        · by_cases hz : (if args.sampleTo = -1 then (itemNum : Int) else args.sampleTo) = 0
          · simp [hs, hf, hp, groupedBatchSizeAdaptation, hz]
          · simp [hs, hf, hp, groupedBatchSizeAdaptation, hz]
        · simp [hs, hf, hp]
    · simp [hs]

/-- C7, witness: a valid pointwise `by`-configuration constructs, and the
pairwise `to`-configuration listed as invalid does not. -/
theorem C7_witness :
    (∃ s, generalInteractionBasedInit "pointwise"
        { strategy := "by", realTime := true, sampleBy := 2, sampleTo := 0 } 9 = .ok s) ∧
    ¬ (∃ s, generalGroupedInit "pairwise"
        { strategy := "to", realTime := true, sampleBy := 1, sampleTo := 4 } 5 2 = .ok s) := by
  constructor
  · exact (C7_amended_construction_validation.1 "pointwise" _ 9).mpr ⟨rfl, Or.inl rfl⟩
  · intro hex
    have h := (C7_amended_construction_validation.2 "pairwise" _ 5 2
      (Or.inr (by decide))).mp hex
    exact absurd h.2.1 (by decide)

theorem dictSet_cons_ne {β : Type} (p : String × β) (d : List (String × β))
    (k : String) (v : β) (hp : p.1 ≠ k) :
    dictSet (p :: d) k v = p :: dictSet d k v := by
  unfold dictSet
  have hany : (p :: d).any (fun q => decide (q.1 = k)) = d.any (fun q => decide (q.1 = k)) := by
    simp [List.any_cons, hp]
  rw [hany]
  by_cases h : d.any (fun q => decide (q.1 = k)) = true
  · rw [if_pos h, if_pos h, List.map_cons, if_neg hp]
  · rw [if_neg h, if_neg h, List.cons_append]

theorem lookup_cons_of_eq {α β : Type} [BEq α] [LawfulBEq α] (p : α × β)
    (es : List (α × β)) (a : α) (h : a = p.1) :
    (p :: es).lookup a = some p.2 := by
  cases p with
  | mk k b =>
      rw [List.lookup_cons]
      have hb : (a == k) = true := beq_iff_eq.mpr h
      rw [hb]

theorem lookup_cons_of_ne {α β : Type} [BEq α] [LawfulBEq α] (p : α × β)
    (es : List (α × β)) (a : α) (h : a ≠ p.1) :
    (p :: es).lookup a = es.lookup a := by
  cases p with
  | mk k b =>
      rw [List.lookup_cons]
      have hb : (a == k) = false := beq_eq_false_iff_ne.mpr h
      rw [hb]

theorem lookup_map_setKey_ne {β : Type} (d : List (String × β)) (k k' : String)
    (v : β) (h : k' ≠ k) :
    (d.map (fun p => if p.1 = k then (k, v) else p)).lookup k' = d.lookup k' := by
  induction d with
  | nil => rfl
  | cons p d ih =>
      rw [List.map_cons]
      by_cases hp : p.1 = k
      · rw [if_pos hp, lookup_cons_of_ne _ _ _ h, ih,
          lookup_cons_of_ne p d k' (fun he => h (he.trans hp))]
      · by_cases hq : k' = p.1
        · rw [if_neg hp, lookup_cons_of_eq _ _ _ hq, lookup_cons_of_eq p d k' hq]
        · rw [if_neg hp, lookup_cons_of_ne _ _ _ hq, ih,
            lookup_cons_of_ne p d k' hq]

theorem lookup_dictSet {β : Type} (d : List (String × β)) (k : String) (v : β)
    (k' : String) :
    (dictSet d k v).lookup k' = if k' = k then some v else d.lookup k' := by
  induction d with
  | nil =>
      by_cases hk : k' = k
      · rw [if_pos hk]
        exact lookup_cons_of_eq (k, v) [] k' hk
      · rw [if_neg hk]
        exact lookup_cons_of_ne (k, v) [] k' hk
  | cons p d ih =>
      by_cases hp : p.1 = k
      · have hany : (p :: d).any (fun q => decide (q.1 = k)) = true := by
          simp [List.any_cons, hp]
        unfold dictSet
        rw [if_pos hany, List.map_cons, if_pos hp]
        by_cases hk : k' = k
        · rw [if_pos hk, lookup_cons_of_eq (k, v) _ k' hk]
        · rw [if_neg hk, lookup_cons_of_ne (k, v) _ k' hk,
            lookup_map_setKey_ne d k k' v hk,
            lookup_cons_of_ne p d k' (fun he => hk (he.trans hp))]
      · rw [dictSet_cons_ne p d k v hp]
        by_cases hq : k' = p.1
        · have hkne : k' ≠ k := fun he => hp (by rw [← hq, he])
          rw [lookup_cons_of_eq p _ k' hq, if_neg hkne,
            lookup_cons_of_eq p d k' hq]
        · rw [lookup_cons_of_ne p _ k' hq, ih, lookup_cons_of_ne p d k' hq]

theorem lookup_foldl_dictSet_not_mem {β : Type} (entries : List (String × β))
    (k : String) (h : k ∉ entries.map (fun p => p.1)) :
    ∀ acc : List (String × β),
      (entries.foldl (fun d p => dictSet d p.1 p.2) acc).lookup k = acc.lookup k := by
  induction entries with
  | nil => intro acc; rfl
  | cons p rest ih =>
      intro acc
      have hk : k ≠ p.1 := by
        intro he; exact h (by simp [he])
      have hrest : k ∉ rest.map (fun p => p.1) := by
        intro hm; exact h (by simp [hm])
      rw [List.foldl_cons, ih hrest, lookup_dictSet, if_neg hk]

theorem lookup_foldl_dictSet_mem {β : Type} (entries : List (String × β))
    (k : String) (v : β) (hnd : (entries.map (fun p => p.1)).Nodup)
    (hmem : (k, v) ∈ entries) :
    ∀ acc : List (String × β),
      (entries.foldl (fun d p => dictSet d p.1 p.2) acc).lookup k = some v := by
  induction entries with
  | nil => cases hmem
  | cons p rest ih =>
      intro acc
      rw [List.foldl_cons]
      rcases List.mem_cons.mp hmem with hhd | htl
      · have hk1 : p.1 = k := by rw [← hhd]
        have hk : k ∉ rest.map (fun q => q.1) := by
          have h2 := (List.nodup_cons.mp hnd).1
          rw [← hk1]
          exact h2
        rw [lookup_foldl_dictSet_not_mem rest k hk, lookup_dictSet,
          if_pos hk1.symm]
        rw [← hhd]
      · exact ih (List.nodup_cons.mp hnd).2 htl _

/-- C10.  The `Interaction`'s reported length is the first dimension of the
first field in insertion order, captured at construction: on a nonempty
dict whose fields all share first dimension `L`, `__len__` returns `L`;
`update` overwrites exactly the fields present in the other container
(leaving all other fields untouched) and never recomputes the stored
length, so the reported length survives an update that changes a field's
length. -/
theorem C10_interaction_length_update {α : Type} (shape0 : α → Nat) :
    (∀ (p : String × α) (d : List (String × α)),
      (mkInteraction shape0 (p :: d)).lengthVal = some (shape0 p.2)) ∧
    (∀ (d : List (String × α)) (L : Nat), d ≠ [] →
      (∀ q ∈ d, shape0 q.2 = L) →
      (mkInteraction shape0 d).lengthVal = some L) ∧
    (∀ self other : Interaction α,
      (self.update other).lengthVal = self.lengthVal) ∧
    (∀ (self other : Interaction α) (k : String) (v : α),
      (other.interaction.map (fun p => p.1)).Nodup →
      (k, v) ∈ other.interaction →
      (self.update other).interaction.lookup k = some v) ∧
    (∀ (self other : Interaction α) (k : String),
      k ∉ other.interaction.map (fun p => p.1) →
      (self.update other).interaction.lookup k = self.interaction.lookup k) := by
  refine ⟨fun p d => rfl, fun d L hne hall => ?_, fun self other => rfl,
    fun self other k v hnd hmem => ?_, fun self other k hk => ?_⟩
  · cases d with
    | nil => exact absurd rfl hne
    | cons p d =>
        simp [mkInteraction, Interaction.lengthVal, hall p (List.mem_cons_self p d)]
  · exact lookup_foldl_dictSet_mem other.interaction k v hnd hmem self.interaction
  · exact lookup_foldl_dictSet_not_mem other.interaction k hk self.interaction

/-- C10, witness: a two-field container of common length 2 reports length 2;
updating field `b` with a length-1 tensor overwrites `b`, leaves `a`
untouched, and the reported length stays 2. -/
theorem C10_witness :
    (mkInteraction (List.length (α := Int)) [("a", [1, 2]), ("b", [3, 4])]).lengthVal =
      some 2 ∧
    ((mkInteraction (List.length (α := Int)) [("a", [1, 2]), ("b", [3, 4])]).update
        (mkInteraction List.length [("b", ([9] : List Int))])).interaction.lookup "b" =
      some [9] ∧
    ((mkInteraction (List.length (α := Int)) [("a", [1, 2]), ("b", [3, 4])]).update
        (mkInteraction List.length [("b", ([9] : List Int))])).interaction.lookup "a" =
      some [1, 2] ∧
    ((mkInteraction (List.length (α := Int)) [("a", [1, 2]), ("b", [3, 4])]).update
        (mkInteraction List.length [("b", ([9] : List Int))])).lengthVal = some 2 := by
  obtain ⟨h1, h2, h3, h4, h5⟩ := C10_interaction_length_update (List.length (α := Int))
  refine ⟨h2 _ 2 (by decide) (by decide), ?_, ?_, ?_⟩
  · exact h4 _ _ "b" [9] (by decide) (by decide)
  · exact h5 _ _ "a" (by decide)
  · rw [h3]
    rfl

theorem flatten_replicate_length {α : Type} (m : Nat) (l : List α) :
    (List.replicate m l).flatten.length = m * l.length := by
  rw [List.length_flatten, List.map_replicate, List.sum_const_nat]

/-- C2.  Pointwise negative sampling of a slice of `n` positive rows with
`by = k` (so `times = 1 + k`, as set by the batch-size adaptation) succeeds
whenever the sampler returns its contracted `n * k` negatives, and the
output table has all three columns of length `n * (1 + k)`, a label column
of exactly `n` ones followed by `n * k` zeros, an item-id column whose first
`n` entries are the input item ids unchanged and whose remaining `n * k`
entries are the sampler-drawn negatives. -/
theorem C2_point_wise_sampling (k : Nat) (interFeat : List (Int × Int))
    (negIids : List Int) (h : negIids.length = interFeat.length * k) :
    negSampleByPointWiseSampling (1 + k) interFeat negIids =
      .ok { uids := (List.replicate (1 + k) interFeat).flatten.map Prod.fst,
            iids := interFeat.map Prod.snd ++ negIids,
            labels := List.replicate interFeat.length 1 ++
              List.replicate (interFeat.length * k) 0 } ∧
    ((List.replicate (1 + k) interFeat).flatten.map Prod.fst).length =
      interFeat.length * (1 + k) ∧
    (interFeat.map Prod.snd ++ negIids).length = interFeat.length * (1 + k) ∧
    (List.replicate interFeat.length (1 : Int) ++
        List.replicate (interFeat.length * k) (0 : Int)).length =
      interFeat.length * (1 + k) ∧
    (interFeat.map Prod.snd ++ negIids).take interFeat.length =
      interFeat.map Prod.snd ∧
    (interFeat.map Prod.snd ++ negIids).drop interFeat.length = negIids := by
  have hexp : interFeat.length * (1 + k) =
      interFeat.length + interFeat.length * k := by ring
  have hflat : (List.replicate (1 + k) interFeat).flatten =
      interFeat ++ (List.replicate k interFeat).flatten := by
    rw [Nat.add_comm 1 k, List.replicate_succ, List.flatten_cons]
  have hflen : (List.replicate (1 + k) interFeat).flatten.length =
      interFeat.length * (1 + k) := by
    rw [flatten_replicate_length, Nat.mul_comm]
  have hcond : negIids.length =
      ((List.replicate (1 + k) interFeat).flatten.map Prod.snd).length -
        interFeat.length := by
    rw [List.length_map, hflen, hexp, Nat.add_sub_cancel_left, h]
  have htake : ((List.replicate (1 + k) interFeat).flatten.map Prod.snd).take
      interFeat.length = interFeat.map Prod.snd := by
    rw [hflat, List.map_append]
    exact List.take_left' (by rw [List.length_map])
  have hlab : sliceAssignScalarPre
      (List.replicate (interFeat.length * (1 + k)) (0 : Int)) interFeat.length 1 =
      List.replicate interFeat.length 1 ++
        List.replicate (interFeat.length * k) 0 := by
    unfold sliceAssignScalarPre
    rw [List.take_replicate, List.drop_replicate, List.map_replicate,
      Nat.min_eq_left (by rw [hexp]; exact Nat.le_add_right _ _), hexp,
      Nat.add_sub_cancel_left]
  refine ⟨?_, ?_, ?_, ?_, List.take_left' (by rw [List.length_map]),
    List.drop_left' (by rw [List.length_map])⟩
  · simp only [negSampleByPointWiseSampling, sliceAssignSuffix]
    rw [if_pos hcond]
    rw [htake, hlab]
  · rw [List.length_map, hflen]
  · rw [List.length_append, List.length_map, h, hexp]
  · rw [List.length_append, List.length_replicate, List.length_replicate, hexp]

/-- C2, witness: the spec's end-to-end example — a slice of 3 positive rows
with `by = 2` yields 9 output rows, labels `[1,1,1,0,0,0,0,0,0]`, the first
3 item ids unchanged and the last 6 the drawn negatives. -/
theorem C2_witness :
    ([91, 92, 93, 94, 95, 96] : List Int).length =
      ([(1, 10), (2, 20), (3, 30)] : List (Int × Int)).length * 2 ∧
    negSampleByPointWiseSampling 3 [(1, 10), (2, 20), (3, 30)]
        [91, 92, 93, 94, 95, 96] =
      .ok { uids := [1, 2, 3, 1, 2, 3, 1, 2, 3],
            iids := [10, 20, 30, 91, 92, 93, 94, 95, 96],
            labels := [1, 1, 1, 0, 0, 0, 0, 0, 0] } := by
  refine ⟨by decide, ?_⟩
  have h := (C2_point_wise_sampling 2 [(1, 10), (2, 20), (3, 30)]
    [91, 92, 93, 94, 95, 96] (by decide)).1
  rw [h]
  rfl

theorem filter_key_of_nodup {φ : Type} (right : List (Int × φ))
    (hnd : (right.map (fun p => p.1)).Nodup) (key : Int) :
    (right.filter (fun p => p.1 = key) = [] ∧ right.lookup key = none) ∨
    (∃ v, right.filter (fun p => p.1 = key) = [(key, v)] ∧
      right.lookup key = some v) := by
  induction right with
  | nil => exact Or.inl ⟨rfl, rfl⟩
  | cons p rest ih =>
      have hnd2 := List.nodup_cons.mp hnd
      by_cases hp : p.1 = key
      · refine Or.inr ⟨p.2, ?_, ?_⟩
        · have hnone : rest.filter (fun q => decide (q.1 = key)) = [] := by
            apply List.filter_eq_nil_iff.mpr
            intro q hq hdec
            have hq1 : q.1 = key := of_decide_eq_true hdec
            apply hnd2.1
            show p.1 ∈ List.map (fun p => p.1) rest
            have hq2 : p.1 = q.1 := by rw [hp, hq1]
            rw [hq2]
            exact List.mem_map_of_mem (fun r => r.1) hq
          rw [List.filter_cons, if_pos (by simpa using hp), hnone]
          have : p = (key, p.2) := by
            cases p
            simp only at hp
            rw [hp]
          rw [← this]
        · exact lookup_cons_of_eq p rest key hp.symm
      · rw [List.filter_cons, if_neg (by simpa using hp),
          lookup_cons_of_ne p rest key (fun he => hp he.symm)]
        exact ih hnd2.2

theorem leftMergeOnNeg_of_nodup {α φ : Type} (left : List (α × Int))
    (right : List (Int × φ)) (hnd : (right.map (fun p => p.1)).Nodup) :
    leftMergeOnNeg left right = left.map (fun r => (r, right.lookup r.2)) := by
  unfold leftMergeOnNeg
  induction left with
  | nil => rfl
  | cons r rest ih =>
      rw [List.flatMap_cons, ih, List.map_cons]
      rcases filter_key_of_nodup right hnd r.2 with ⟨hf, hl⟩ | ⟨v, hf, hl⟩
      · rw [hf, hl]
        rfl
      · rw [hf, hl]
        rfl

/-- C9.  Pairwise negative sampling of a slice of `n` rows succeeds whenever
the sampler returns one negative per row, and yields exactly `n` rows in
input order: each output row is the input row with the sampled negative
item id appended, and, when an item feature table with unique item ids
exists, with that negative's feature row left-joined on the negative item
id. -/
theorem C9_pair_wise_sampling {φ : Type} (interFeat : List (Int × Int))
    (negIids : List Int) (itemFeat : Option (List (Int × φ)))
    (hlen : negIids.length = interFeat.length)
    (hnd : ∀ feat, itemFeat = some feat → (feat.map (fun p => p.1)).Nodup) :
    ∃ res, negSampleByPairWiseSampling interFeat negIids itemFeat = .ok res ∧
      res.length = interFeat.length ∧
      res.map (fun r => r.1.1) = interFeat ∧
      res.map (fun r => r.1.2) = negIids ∧
      (∀ feat, itemFeat = some feat →
        res = (interFeat.zip negIids).map (fun r => (r, feat.lookup r.2))) ∧
      (itemFeat = none →
        res = (interFeat.zip negIids).map (fun r => (r, none))) := by
  have hz : (interFeat.zip negIids).length = interFeat.length := by
    rw [List.length_zip, hlen, Nat.min_self]
  have hfst : ∀ o : Int → Option φ,
      ((interFeat.zip negIids).map (fun r => (r, o r.2))).map (fun r => r.1.1) =
        interFeat := by
    intro o
    rw [List.map_map]
    have : ((fun (r : ((Int × Int) × Int) × Option φ) => r.1.1) ∘
        (fun r => (r, o r.2))) = Prod.fst := rfl
    rw [this]
    exact List.map_fst_zip interFeat negIids (by rw [hlen])
  have hsnd : ∀ o : Int → Option φ,
      ((interFeat.zip negIids).map (fun r => (r, o r.2))).map (fun r => r.1.2) =
        negIids := by
    intro o
    rw [List.map_map]
    have : ((fun (r : ((Int × Int) × Int) × Option φ) => r.1.2) ∘
        (fun r => (r, o r.2))) = Prod.snd := rfl
    rw [this]
    exact List.map_snd_zip interFeat negIids (by rw [hlen])
  cases itemFeat with
  | none =>
      refine ⟨(interFeat.zip negIids).map (fun r => (r, none)), ?_, ?_, ?_, ?_, ?_, ?_⟩
      · simp only [negSampleByPairWiseSampling]
        rw [if_neg (by rw [hlen]; exact fun h => h rfl)]
      · rw [List.length_map, hz]
      · exact hfst (fun _ => none)
      · exact hsnd (fun _ => none)
      · intro feat hfeat
        cases hfeat
      · intro _
        rfl
  | some feat =>
      refine ⟨(interFeat.zip negIids).map (fun r => (r, feat.lookup r.2)),
        ?_, ?_, ?_, ?_, ?_, ?_⟩
      · simp only [negSampleByPairWiseSampling]
        rw [if_neg (by rw [hlen]; exact fun h => h rfl)]
        rw [leftMergeOnNeg_of_nodup _ feat (hnd feat rfl)]
      · rw [List.length_map, hz]
      · exact hfst (fun x => feat.lookup x)
      · exact hsnd (fun x => feat.lookup x)
      · intro feat2 hfeat
        cases hfeat
        rfl
      · intro hfeat
        cases hfeat

/-- C9, witness: two rows, negatives `[5, 6]`, an item feature table with
unique item ids; the output keeps both rows, appends the negatives and joins
their features. -/
theorem C9_witness :
    ∃ res, negSampleByPairWiseSampling [((1 : Int), (10 : Int)), (2, 20)]
        [5, 6] (some [((5 : Int), (50 : Int)), (6, 60)]) = .ok res ∧
      res.length = 2 ∧
      res = [(((1, 10), 5), some 50), (((2, 20), 6), some 60)] := by
  obtain ⟨res, hok, hlen, _, _, hjoin, _⟩ :=
    C9_pair_wise_sampling [((1 : Int), (10 : Int)), (2, 20)] [5, 6]
      (some [((5 : Int), (50 : Int)), (6, 60)]) (by decide)
      (fun feat hf => by cases hf; decide)
  refine ⟨res, hok, hlen, ?_⟩
  rw [hjoin _ rfl]
  rfl

/-- C3.  Per user group, the non-full grouped sampling keeps exactly the
first `min(pos_count, to − 1)` of the user's positive items (later positives
dropped), requests `to − pos_num` negatives from the sampler, emits the kept
positives (label 1) followed by the drawn negatives (label 0) so that the
group contributes `pos_num + drawn` rows — exactly `to` when the sampler
returns the requested number — and stamps the group's user id on every
row. -/
theorem C3_grouped_to_sampling (samplerByUserId : Int → Nat → List Int)
    (negSampleTo : Nat) (uid : Int) (posItems : List Int) :
    ((groupRowsTo samplerByUserId negSampleTo uid posItems).filter
        (fun r => r.label = 1)).map (fun r => r.iid) =
      posItems.take (negSampleTo - 1) ∧
    (groupRowsTo samplerByUserId negSampleTo uid posItems).take
        (min (negSampleTo - 1) posItems.length) =
      (posItems.take (negSampleTo - 1)).map
        (fun x => { uid := uid, iid := x, label := 1 }) ∧
    (∀ r ∈ (groupRowsTo samplerByUserId negSampleTo uid posItems).drop
        (min (negSampleTo - 1) posItems.length), r.label = 0) ∧
    (groupRowsTo samplerByUserId negSampleTo uid posItems).length =
      min (negSampleTo - 1) posItems.length +
        (samplerByUserId uid
          (negSampleTo - min (negSampleTo - 1) posItems.length)).length ∧
    ((samplerByUserId uid
        (negSampleTo - min (negSampleTo - 1) posItems.length)).length =
      negSampleTo - min (negSampleTo - 1) posItems.length →
      (groupRowsTo samplerByUserId negSampleTo uid posItems).length =
        negSampleTo) ∧
    (∀ r ∈ groupRowsTo samplerByUserId negSampleTo uid posItems, r.uid = uid) := by
  have hplen : (posItems.take (negSampleTo - 1)).length =
      min (negSampleTo - 1) posItems.length := List.length_take _ _
  have hrows : groupRowsTo samplerByUserId negSampleTo uid posItems =
      (posItems.take (negSampleTo - 1)).map
          (fun x => { uid := uid, iid := x, label := 1 }) ++
        (samplerByUserId uid
            (negSampleTo - min (negSampleTo - 1) posItems.length)).map
          (fun x => { uid := uid, iid := x, label := 0 }) := by
    simp only [groupRowsTo]
    rw [hplen]
  refine ⟨?_, ?_, ?_, ?_, ?_, ?_⟩
  · rw [hrows, List.filter_append]
    have h1 : ((posItems.take (negSampleTo - 1)).map
        (fun x => ({ uid := uid, iid := x, label := 1 } : GRow))).filter
          (fun r => r.label = 1) =
        (posItems.take (negSampleTo - 1)).map
          (fun x => ({ uid := uid, iid := x, label := 1 } : GRow)) := by
      apply List.filter_eq_self.mpr
      intro r hr
      obtain ⟨x, _, hx⟩ := List.mem_map.mp hr
      rw [← hx]
      simp
    have h2 : ((samplerByUserId uid
          (negSampleTo - min (negSampleTo - 1) posItems.length)).map
        (fun x => ({ uid := uid, iid := x, label := 0 } : GRow))).filter
          (fun r => r.label = 1) = [] := by
      apply List.filter_eq_nil_iff.mpr
      intro r hr
      obtain ⟨x, _, hx⟩ := List.mem_map.mp hr
      rw [← hx]
      simp
    rw [h1, h2, List.append_nil, List.map_map]
    have : ((fun (r : GRow) => r.iid) ∘
        (fun x => ({ uid := uid, iid := x, label := 1 } : GRow))) = id := rfl
    rw [this, List.map_id]
  · rw [hrows]
    exact List.take_left' (by rw [List.length_map, hplen])
  · intro r hr
    rw [hrows, List.drop_left' (by rw [List.length_map, hplen])] at hr
    obtain ⟨x, _, hx⟩ := List.mem_map.mp hr
    rw [← hx]
  · rw [hrows, List.length_append, List.length_map, List.length_map, hplen]
  · intro hs
    rw [hrows, List.length_append, List.length_map, List.length_map, hplen, hs]
    have : min (negSampleTo - 1) posItems.length ≤ negSampleTo :=
      le_trans (Nat.min_le_left _ _) (Nat.sub_le _ _)
    omega
  · intro r hr
    rw [hrows] at hr
    rcases List.mem_append.mp hr with h | h <;>
      obtain ⟨x, _, hx⟩ := List.mem_map.mp h <;> rw [← hx]

/-- C3, witness: the spec's example — `to = 4`, a user with 5 positives,
a sampler answering the 1 requested negative: only the first 3 positives are
kept, the group is 4 rows wide, labels `[1,1,1,0]`, all rows carrying the
user id. -/
theorem C3_witness :
    ((groupRowsTo (fun _ n => List.replicate n 9) 4 7 [1, 2, 3, 4, 5]).filter
        (fun r => r.label = 1)).map (fun r => r.iid) = [1, 2, 3] ∧
    (groupRowsTo (fun _ n => List.replicate n 9) 4 7 [1, 2, 3, 4, 5]).length = 4 ∧
    (∀ r ∈ groupRowsTo (fun _ n => List.replicate n 9) 4 7 [1, 2, 3, 4, 5],
      r.uid = 7) ∧
    (groupRowsTo (fun _ n => List.replicate n 9) 4 7 [1, 2, 3, 4, 5]).map
      (fun r => r.label) = [1, 1, 1, 0] := by
  obtain ⟨h1, h2, h3, h4, h5, h6⟩ :=
    C3_grouped_to_sampling (fun _ n => List.replicate n 9) 4 7 [1, 2, 3, 4, 5]
  refine ⟨h1, h5 (by decide), h6, by decide⟩

/-- C4.  The `token` and `float` branches of `_dataframe_to_interaction`
convert their columns as the claim says, and an unrecognized type raises
`ValueError`; but the `token_seq`/`float_seq` branches never pad and stack:
the list comprehension is assigned to the name `data` itself, clobbering the
dict, and the following `data[k] = rnn_utils.pad_sequence(...)` indexes that
Python list with a string key, raising `TypeError` on any table containing a
sequence-typed field. -/
theorem C4_dataframe_conversion_seq_bug :
    dataframeToInteraction (fun k => if k = "x" then "token_seq" else "token")
        [("x", Col.rawSeq [[1, 2, 3]])] =
      .error "TypeError: list indices must be integers or slices, not str" ∧
    dataframeToInteraction (fun k => if k = "x" then "float_seq" else "token")
        [("x", Col.rawSeq [[1, 2, 3]])] =
      .error "TypeError: list indices must be integers or slices, not str" ∧
    dataframeToInteraction (fun k => if k = "u" then "token" else "float")
        [("u", Col.raw [1, 2]), ("s", Col.raw [3, 4])] =
      .ok (mkInteraction Col.shape0
        [("u", Col.longTensor [1, 2]), ("s", Col.floatTensor [3, 4])]) ∧
    dataframeToInteraction (fun _ => "bogus") [("u", Col.raw [1])] =
      .error "ValueError: Illegal ftype [bogus]" := by
  refine ⟨rfl, rfl, ?_, rfl⟩
  rfl

theorem take_add' {α : Type} (l : List α) (m n : Nat) :
    l.take (m + n) = l.take m ++ (l.drop m).take n := by
  have h1 := List.take_append_drop m (l.take (m + n))
  rw [List.take_take, Nat.min_eq_left (Nat.le_add_right m n), ← List.take_drop] at h1
  exact h1.symm

theorem flatLen_nil : flatLen [] = 0 := rfl

theorem flatLen_cons (out : List GRow) (outs : List (List GRow)) :
    flatLen (out :: outs) = out.length + flatLen outs := by
  simp [flatLen]

theorem flatLen_take_succ_cons (out : List GRow) (outs : List (List GRow)) (j : Nat) :
    flatLen ((out :: outs).take (j + 1)) = out.length + flatLen (outs.take j) := by
  rw [List.take_succ_cons, flatLen_cons]

theorem flatLen_eq_length_flatten (outs : List (List GRow)) :
    flatLen outs = outs.flatten.length := by
  rw [List.length_flatten, flatLen]

theorem isLinkChain_append (c d e : Nat) (L M : List (Nat × Nat))
    (h1 : IsLinkChain c L d) (h2 : IsLinkChain d M e) :
    IsLinkChain c (L ++ M) e := by
  induction L generalizing c with
  | nil =>
      cases h1
      exact h2
  | cons p L ih =>
      obtain ⟨hk, hrest⟩ := h1
      exact ⟨hk, ih p.2 hrest⟩

theorem cursorsOf_getLast (c d : Nat) (L : List (Nat × Nat))
    (h : IsLinkChain c L d) : (cursorsOf c L).getLast? = some d := by
  induction L generalizing c with
  | nil =>
      cases h
      rfl
  | cons p L ih =>
      obtain ⟨hk, hrest⟩ := h
      show (c :: p.2 :: L.map (fun q => q.2)).getLast? = some d
      rw [List.getLast?_cons_cons]
      exact ih p.2 hrest

theorem cursorsOf_chain_lt (c d : Nat) (L : List (Nat × Nat))
    (h : IsLinkChain c L d) (hstrict : ∀ p ∈ L, p.1 < p.2) :
    List.Chain' (· < ·) (cursorsOf c L) := by
  induction L generalizing c with
  | nil => exact List.chain'_singleton c
  | cons p L ih =>
      obtain ⟨hk, hrest⟩ := h
      show List.Chain' (· < ·) (c :: p.2 :: L.map (fun q => q.2))
      refine List.chain'_cons.mpr ⟨?_, ?_⟩
      · rw [← hk]
        exact hstrict p (List.mem_cons_self p L)
      · exact ih p.2 hrest (fun q hq => hstrict q (List.mem_cons_of_mem p hq))

theorem chain_lt_head_lt_mem (c : Nat) (cs : List Nat)
    (h : List.Chain' (· < ·) (c :: cs)) : ∀ y ∈ cs, c < y := by
  intro y hy
  have hp := List.chain'_iff_pairwise.mp h
  exact (List.pairwise_cons.mp hp).1 y hy

theorem cursorsOf_lookup (c d : Nat) (L : List (Nat × Nat))
    (h : IsLinkChain c L d) (hstrict : ∀ p ∈ L, p.1 < p.2) :
    ∀ pr ∈ (cursorsOf c L).zip (cursorsOf c L).tail,
      L.lookup pr.1 = some pr.2 := by
  induction L generalizing c with
  | nil => intro pr hpr; cases hpr
  | cons p L ih =>
      obtain ⟨hk, hrest⟩ := h
      intro pr hpr
      have hcur : (cursorsOf c (p :: L)).zip (cursorsOf c (p :: L)).tail =
          (c, p.2) :: (cursorsOf p.2 L).zip (cursorsOf p.2 L).tail := rfl
      rw [hcur] at hpr
      rcases List.mem_cons.mp hpr with hhd | htl
      · rw [hhd]
        exact lookup_cons_of_eq p L c hk.symm
      · have hlk := ih p.2 hrest (fun q hq => hstrict q (List.mem_cons_of_mem p hq))
          pr htl
        have hmem : pr.1 ∈ cursorsOf p.2 L := by
          obtain ⟨a, b⟩ := pr
          exact (List.of_mem_zip htl).1
        have hchain : List.Chain' (· < ·) (c :: cursorsOf p.2 L) := by
          have h2 : List.Chain' (· < ·) (cursorsOf c (p :: L)) :=
            cursorsOf_chain_lt c d (p :: L) ⟨hk, hrest⟩ hstrict
          exact h2
        have hlt : c < pr.1 := chain_lt_head_lt_mem c (cursorsOf p.2 L) hchain pr.1 hmem
        rw [lookup_cons_of_ne p L pr.1 (by
          rw [hk]
          exact Nat.ne_of_gt hlt)]
        exact hlk

theorem chain_le_head_le_getLast (c : Nat) (cs : List Nat) (d : Nat)
    (h : List.Chain' (· ≤ ·) (c :: cs)) (hl : (c :: cs).getLast? = some d) :
    c ≤ d := by
  induction cs generalizing c with
  | nil =>
      have : c = d := by
        simpa using hl
      exact this.le
  | cons b cs ih =>
      have h2 := List.chain'_cons.mp h
      rw [List.getLast?_cons_cons] at hl
      exact le_trans h2.1 (ih b h2.2 hl)

theorem sliceRange_tiles {α : Type} (rows : List α) :
    ∀ (cs : List Nat) (c : Nat), List.Chain' (· ≤ ·) (c :: cs) →
      (c :: cs).getLast? = some rows.length →
      (((c :: cs).zip cs).map (fun pr => sliceRange rows pr.1 pr.2)).flatten =
        (rows.drop c).take (rows.length - c) := by
  intro cs
  induction cs with
  | nil =>
      intro c _ hl
      have hc : c = rows.length := by simpa using hl
      simp [hc]
  | cons b cs ih =>
      intro c hchain hl
      have h2 := List.chain'_cons.mp hchain
      rw [List.getLast?_cons_cons] at hl
      have hble : b ≤ rows.length := chain_le_head_le_getLast b cs rows.length h2.2 hl
      have hzip : ((c :: b :: cs).zip (b :: cs)) =
          (c, b) :: ((b :: cs).zip cs) := rfl
      rw [hzip, List.map_cons, List.flatten_cons, ih b h2.2 hl]
      show sliceRange rows c b ++ (rows.drop b).take (rows.length - b) =
        (rows.drop c).take (rows.length - c)
      unfold sliceRange
      have hdb : rows.drop b = (rows.drop c).drop (b - c) := by
        rw [List.drop_drop, Nat.add_sub_cancel' h2.1]
      rw [hdb, ← take_add']
      congr 1
      omega

theorem sliceRange_tiles_cursorsOf {α : Type} (rows : List α) (c : Nat)
    (links : List (Nat × Nat))
    (hch : List.Chain' (· ≤ ·) (cursorsOf c links))
    (hl : (cursorsOf c links).getLast? = some rows.length) :
    (((cursorsOf c links).zip (cursorsOf c links).tail).map
        (fun pr => sliceRange rows pr.1 pr.2)).flatten =
      (rows.drop c).take (rows.length - c) := by
  unfold cursorsOf at hch hl ⊢
  exact sliceRange_tiles rows (links.map (fun p => p.2)) c hch hl

theorem gLoop_cons_record (rowsOf : Int × List Int → List GRow) (step : Nat)
    (g : Int × List Int) (rest : List (Int × List Int)) (i cnt : Nat)
    (nxt : List (Nat × Nat)) (lastPr : Nat) (hmod : i % step = 0) (hi : i ≠ 0) :
    gLoop rowsOf false step (g :: rest) i cnt nxt lastPr =
      ((rowsOf g) ++ (gLoop rowsOf false step rest (i + 1) (cnt + (rowsOf g).length)
          (nxt ++ [(lastPr, cnt + (rowsOf g).length)]) (cnt + (rowsOf g).length)).1,
        (gLoop rowsOf false step rest (i + 1) (cnt + (rowsOf g).length)
          (nxt ++ [(lastPr, cnt + (rowsOf g).length)])
          (cnt + (rowsOf g).length)).2) := by
  simp [gLoop, hmod, hi]

theorem gLoop_cons_norecord (rowsOf : Int × List Int → List GRow) (step : Nat)
    (g : Int × List Int) (rest : List (Int × List Int)) (i cnt : Nat)
    (nxt : List (Nat × Nat)) (lastPr : Nat) (hmod : ¬ i % step = 0) :
    gLoop rowsOf false step (g :: rest) i cnt nxt lastPr =
      ((rowsOf g) ++ (gLoop rowsOf false step rest (i + 1) (cnt + (rowsOf g).length)
          nxt lastPr).1,
        (gLoop rowsOf false step rest (i + 1) (cnt + (rowsOf g).length)
          nxt lastPr).2) := by
  simp [gLoop, hmod]

theorem gLoop_cons_zero (rowsOf : Int × List Int → List GRow) (step : Nat)
    (g : Int × List Int) (rest : List (Int × List Int)) (cnt : Nat)
    (nxt : List (Nat × Nat)) (lastPr : Nat) :
    gLoop rowsOf false step (g :: rest) 0 cnt nxt lastPr =
      ((rowsOf g) ++ (gLoop rowsOf false step rest 1 (cnt + (rowsOf g).length)
          [] 0).1,
        (gLoop rowsOf false step rest 1 (cnt + (rowsOf g).length) [] 0).2) := by
  simp [gLoop]

theorem gLoop_spec (rowsOf : Int × List Int → List GRow) (step : Nat)
    (gs : List (Int × List Int)) (hne : ∀ g ∈ gs, rowsOf g ≠ []) :
    ∀ (i cnt : Nat) (nxt : List (Nat × Nat)) (lastPr : Nat),
      1 ≤ i → lastPr ≤ cnt →
      ∃ L lastF,
        gLoop rowsOf false step gs i cnt nxt lastPr =
          ((gs.map rowsOf).flatten, nxt ++ L, lastF) ∧
        IsLinkChain lastPr L lastF ∧
        lastF ≤ cnt + flatLen (gs.map rowsOf) ∧
        (∀ p ∈ L, p.1 < p.2) ∧
        (∀ p ∈ L, ∃ j, j ≤ gs.length ∧
          p.2 = cnt + flatLen ((gs.map rowsOf).take j) ∧
          (i + j) % step = 1 % step) := by
  induction gs with
  | nil =>
      intro i cnt nxt lastPr hi hle
      refine ⟨[], lastPr, ?_, rfl, ?_, ?_, ?_⟩
      · simp [gLoop]
      · simpa [flatLen] using hle
      · intro p hp; cases hp
      · intro p hp; cases hp
  | cons g rest ih =>
      intro i cnt nxt lastPr hi hle
      have hgne : rowsOf g ≠ [] := hne g (List.mem_cons_self g rest)
      have hpos : 1 ≤ (rowsOf g).length := List.length_pos.mpr hgne
      have hrestne : ∀ g2 ∈ rest, rowsOf g2 ≠ [] :=
        fun g2 h2 => hne g2 (List.mem_cons_of_mem g h2)
      by_cases hmod : i % step = 0
      · have hi0 : i ≠ 0 := by omega
        obtain ⟨L, lastF, heq, hchain, hbound, hstrict, hbdy⟩ :=
          ih hrestne (i + 1) (cnt + (rowsOf g).length)
            (nxt ++ [(lastPr, cnt + (rowsOf g).length)])
            (cnt + (rowsOf g).length) (by omega) (le_refl _)
        refine ⟨(lastPr, cnt + (rowsOf g).length) :: L, lastF, ?_, ?_, ?_, ?_, ?_⟩
        · rw [gLoop_cons_record rowsOf step g rest i cnt nxt lastPr hmod hi0, heq,
            List.map_cons, List.flatten_cons]
          rw [List.append_assoc, List.singleton_append]
        · exact ⟨rfl, hchain⟩
        · rw [List.map_cons, flatLen_cons] at *
          omega
        · intro p hp
          rcases List.mem_cons.mp hp with hhd | htl
          · rw [hhd]
            show lastPr < cnt + (rowsOf g).length
            omega
          · exact hstrict p htl
        · intro p hp
          rcases List.mem_cons.mp hp with hhd | htl
          · refine ⟨1, by simp, ?_, ?_⟩
            · rw [hhd, List.map_cons, flatLen_take_succ_cons, List.take_zero,
                flatLen_nil]
              simp
            · rw [Nat.add_mod, hmod, Nat.zero_add, Nat.mod_mod]
          · obtain ⟨j, hj, hval, hcad⟩ := hbdy p htl
            refine ⟨j + 1, by simpa using Nat.succ_le_succ hj, ?_, ?_⟩
            · rw [List.map_cons, flatLen_take_succ_cons, hval]
              omega
            · rw [show i + (j + 1) = i + 1 + j by omega]
              exact hcad
      · obtain ⟨L, lastF, heq, hchain, hbound, hstrict, hbdy⟩ :=
          ih hrestne (i + 1) (cnt + (rowsOf g).length) nxt lastPr (by omega)
            (by omega)
        refine ⟨L, lastF, ?_, hchain, ?_, hstrict, ?_⟩
        · rw [gLoop_cons_norecord rowsOf step g rest i cnt nxt lastPr hmod, heq,
            List.map_cons, List.flatten_cons]
        · rw [List.map_cons, flatLen_cons] at *
          omega
        · intro p hp
          obtain ⟨j, hj, hval, hcad⟩ := hbdy p hp
          refine ⟨j + 1, by simpa using Nat.succ_le_succ hj, ?_, ?_⟩
          · rw [List.map_cons, flatLen_take_succ_cons, hval]
            omega
          · rw [show i + (j + 1) = i + 1 + j by omega]
            exact hcad

/-- C6.  In pre-materialized grouped mode (`real_time` false), the expanded
flat table is the concatenation of the per-group row blocks, and the `next`
map built during the loop (one breakpoint recorded every `step` groups, plus
the final `next[last_pr] = len(new_inter)` entry) realizes a cursor chain
from 0: strictly increasing, visiting only group boundaries of the expanded
table, ending exactly at the number of expanded flat rows — which is
`pr_end` in this mode — so that one pass of `_next_dataframe` emits every
expanded row exactly once; in real-time mode `pr_end` is instead the number
of user groups.  (Hypotheses: `step ≥ 1` as the batch-size adaptation
guarantees, at least one user group, and nonempty per-group output — true
whenever the sampler honours its contract and the candidate-set size is
positive.) -/
theorem C6_grouped_next_map (full : Bool) (negSampleTo step : Nat)
    (samplerByUserId : Int → Nat → List Int)
    (samplerFullByUserId : Int → List Int)
    (uid2items : List (Int × List Int)) (hstep : 1 ≤ step)
    (hne : uid2items ≠ [])
    (hout : ∀ g ∈ uid2items,
      groupRows full negSampleTo samplerByUserId samplerFullByUserId g ≠ []) :
    (gNegSampling full false step negSampleTo samplerByUserId
        samplerFullByUserId uid2items).1 =
      (uid2items.map (groupRows full negSampleTo samplerByUserId
        samplerFullByUserId)).flatten ∧
    NextChainSpec step
      (groupRows full negSampleTo samplerByUserId samplerFullByUserId)
      uid2items
      (gNegSampling full false step negSampleTo samplerByUserId
        samplerFullByUserId uid2items).1
      (gNegSampling full false step negSampleTo samplerByUserId
        samplerFullByUserId uid2items).2 ∧
    gPrEnd false uid2items.length
        (gNegSampling full false step negSampleTo samplerByUserId
          samplerFullByUserId uid2items).1.length =
      (gNegSampling full false step negSampleTo samplerByUserId
        samplerFullByUserId uid2items).1.length ∧
    gPrEnd true uid2items.length
        (gNegSampling full false step negSampleTo samplerByUserId
          samplerFullByUserId uid2items).1.length = uid2items.length := by
  cases uid2items with
  | nil => exact absurd rfl hne
  | cons g rest =>
    have houtg : groupRows full negSampleTo samplerByUserId samplerFullByUserId g ≠ [] :=
      hout g (List.mem_cons_self g rest)
    have hout_rest : ∀ g2 ∈ rest,
        groupRows full negSampleTo samplerByUserId samplerFullByUserId g2 ≠ [] :=
      fun g2 h2 => hout g2 (List.mem_cons_of_mem g h2)
    obtain ⟨L, lastF, heq, hchain, hbound, hstrict, hbdy⟩ :=
      gLoop_spec (groupRows full negSampleTo samplerByUserId samplerFullByUserId)
        step rest hout_rest 1
        ((groupRows full negSampleTo samplerByUserId samplerFullByUserId g).length)
        [] 0 (le_refl 1) (Nat.zero_le _)
    have hzero : gLoop
        (groupRows full negSampleTo samplerByUserId samplerFullByUserId)
        false step (g :: rest) 0 0 [] 0 =
        ((groupRows full negSampleTo samplerByUserId samplerFullByUserId g) ++
            (rest.map (groupRows full negSampleTo samplerByUserId
              samplerFullByUserId)).flatten, L, lastF) := by
      rw [gLoop_cons_zero, Nat.zero_add, heq]
      simp
    have hns : gNegSampling full false step negSampleTo samplerByUserId
        samplerFullByUserId (g :: rest) =
        ((groupRows full negSampleTo samplerByUserId samplerFullByUserId g) ++
            (rest.map (groupRows full negSampleTo samplerByUserId
              samplerFullByUserId)).flatten,
          L ++ [(lastF,
            ((groupRows full negSampleTo samplerByUserId samplerFullByUserId g) ++
              (rest.map (groupRows full negSampleTo samplerByUserId
                samplerFullByUserId)).flatten).length)]) := by
      simp [gNegSampling, hzero]
    have h1 : (gNegSampling full false step negSampleTo samplerByUserId
        samplerFullByUserId (g :: rest)).1 =
        (groupRows full negSampleTo samplerByUserId samplerFullByUserId g) ++
          (rest.map (groupRows full negSampleTo samplerByUserId
            samplerFullByUserId)).flatten := by
      rw [hns]
    have h2 : (gNegSampling full false step negSampleTo samplerByUserId
        samplerFullByUserId (g :: rest)).2 =
        L ++ [(lastF,
          ((groupRows full negSampleTo samplerByUserId samplerFullByUserId g) ++
            (rest.map (groupRows full negSampleTo samplerByUserId
              samplerFullByUserId)).flatten).length)] := by
      rw [hns]
    have htot : ((groupRows full negSampleTo samplerByUserId
        samplerFullByUserId g) ++
          (rest.map (groupRows full negSampleTo samplerByUserId
            samplerFullByUserId)).flatten).length =
        flatLen (((g :: rest)).map (groupRows full negSampleTo samplerByUserId
          samplerFullByUserId)) := by
      rw [List.map_cons, flatLen_cons, flatLen_eq_length_flatten,
        List.length_append]
    have hboundTot : lastF ≤ ((groupRows full negSampleTo samplerByUserId
        samplerFullByUserId g) ++
          (rest.map (groupRows full negSampleTo samplerByUserId
            samplerFullByUserId)).flatten).length := by
      rw [htot, List.map_cons, flatLen_cons]
      exact hbound
    have hbdyShift : ∀ p ∈ L, ∃ j, j ≤ (g :: rest).length ∧
        p.2 = flatLen (((g :: rest).map (groupRows full negSampleTo
          samplerByUserId samplerFullByUserId)).take j) ∧
        (j = 0 ∨ j = (g :: rest).length ∨ j % step = 1 % step) := by
      intro p hp
      obtain ⟨j, hj, hval, hcad⟩ := hbdy p hp
      refine ⟨j + 1, by simpa using Nat.succ_le_succ hj, ?_, ?_⟩
      · rw [List.map_cons, flatLen_take_succ_cons, hval]
      · refine Or.inr (Or.inr ?_)
        rw [show j + 1 = 1 + j by omega]
        exact hcad
    have hbdy0 : ∃ j, j ≤ (g :: rest).length ∧
        (0 : Nat) = flatLen (((g :: rest).map (groupRows full negSampleTo
          samplerByUserId samplerFullByUserId)).take j) ∧
        (j = 0 ∨ j = (g :: rest).length ∨ j % step = 1 % step) :=
      ⟨0, Nat.zero_le _, by rw [List.take_zero, flatLen_nil], Or.inl rfl⟩
    have hbdyTot : ∃ j, j ≤ (g :: rest).length ∧
        ((groupRows full negSampleTo samplerByUserId samplerFullByUserId g) ++
            (rest.map (groupRows full negSampleTo samplerByUserId
              samplerFullByUserId)).flatten).length =
          flatLen (((g :: rest).map (groupRows full negSampleTo
            samplerByUserId samplerFullByUserId)).take j) ∧
        (j = 0 ∨ j = (g :: rest).length ∨ j % step = 1 % step) := by
      refine ⟨(g :: rest).length, le_refl _, ?_, Or.inr (Or.inl rfl)⟩
      rw [htot]
      congr 1
      rw [← List.length_map ((g :: rest)) (groupRows full negSampleTo
        samplerByUserId samplerFullByUserId), List.take_length]
    refine ⟨?_, ?_, rfl, rfl⟩
    · rw [h1, List.map_cons, List.flatten_cons]
    · rw [h1, h2]
      unfold NextChainSpec
      set R := (groupRows full negSampleTo samplerByUserId samplerFullByUserId g) ++
        (rest.map (groupRows full negSampleTo samplerByUserId
          samplerFullByUserId)).flatten with hR
      rcases Nat.lt_or_ge lastF R.length with hlt | hge
      · have hchainF : IsLinkChain 0 (L ++ [(lastF, R.length)]) R.length :=
          isLinkChain_append 0 lastF R.length L [(lastF, R.length)] hchain
            ⟨rfl, rfl⟩
        have hstrictF : ∀ p ∈ L ++ [(lastF, R.length)], p.1 < p.2 := by
          intro p hp
          rcases List.mem_append.mp hp with h | h
          · exact hstrict p h
          · rcases List.mem_singleton.mp h with rfl
            exact hlt
        refine ⟨cursorsOf 0 (L ++ [(lastF, R.length)]),
          cursorsOf_chain_lt 0 R.length _ hchainF hstrictF, rfl,
          cursorsOf_getLast 0 R.length _ hchainF,
          cursorsOf_lookup 0 R.length _ hchainF hstrictF, ?_, ?_⟩
        · intro c hc
          rcases List.mem_cons.mp hc with rfl | hc2
          · exact hbdy0
          · obtain ⟨p, hp, hpv⟩ := List.mem_map.mp hc2
            rcases List.mem_append.mp hp with h | h
            · rw [← hpv]
              exact hbdyShift p h
            · rcases List.mem_singleton.mp h with rfl
              rw [← hpv]
              exact hbdyTot
        · have ht := sliceRange_tiles_cursorsOf R 0 (L ++ [(lastF, R.length)])
            ((cursorsOf_chain_lt 0 R.length _ hchainF hstrictF).imp
              (fun a b hab => le_of_lt hab))
            (cursorsOf_getLast 0 R.length _ hchainF)
          simpa using ht
      · have hFeq : lastF = R.length := le_antisymm hboundTot hge
        refine ⟨cursorsOf 0 L, cursorsOf_chain_lt 0 lastF L hchain hstrict, rfl,
          ?_, ?_, ?_, ?_⟩
        · rw [cursorsOf_getLast 0 lastF L hchain, hFeq]
        · intro pr hpr
          have hlk := cursorsOf_lookup 0 lastF L hchain hstrict pr hpr
          rw [List.lookup_append, hlk, Option.or_some]
        · intro c hc
          rcases List.mem_cons.mp hc with rfl | hc2
          · exact hbdy0
          · obtain ⟨p, hp, hpv⟩ := List.mem_map.mp hc2
            rw [← hpv]
            exact hbdyShift p hp
        · have ht := sliceRange_tiles_cursorsOf R 0 L
            ((cursorsOf_chain_lt 0 lastF L hchain hstrict).imp
              (fun a b hab => le_of_lt hab))
            (by rw [cursorsOf_getLast 0 lastF L hchain, hFeq])
          simpa using ht

/-- C6, witness: three one-positive users, `to = 2`, `step = 2`, a sampler
answering every request; the pre-materialized expansion is the concatenation
of the three 2-row groups and its `next` map satisfies the pagination
contract. -/
theorem C6_witness :
    (gNegSampling false false 2 2 (fun _ n => List.replicate n 99) (fun _ => [])
        [(1, [11]), (2, [22]), (3, [33])]).1 =
      ([((1 : Int), [(11 : Int)]), (2, [22]), (3, [33])].map
        (groupRows false 2 (fun _ n => List.replicate n 99) (fun _ => []))).flatten ∧
    NextChainSpec 2
      (groupRows false 2 (fun _ n => List.replicate n 99) (fun _ => []))
      [(1, [11]), (2, [22]), (3, [33])]
      (gNegSampling false false 2 2 (fun _ n => List.replicate n 99) (fun _ => [])
        [(1, [11]), (2, [22]), (3, [33])]).1
      (gNegSampling false false 2 2 (fun _ n => List.replicate n 99) (fun _ => [])
        [(1, [11]), (2, [22]), (3, [33])]).2 := by
  have h := C6_grouped_next_map false 2 2 (fun _ n => List.replicate n 99)
    (fun _ => []) [(1, [11]), (2, [22]), (3, [33])] (by decide) (by decide)
    (by decide)
  exact ⟨h.1, h.2.1⟩

end RecBole
